import Mathlib

/-!
Verification development for the oasislabs confidential-cdp repository.

The repository's visible source consists of the client harness:
  - cdp/app/test/service.spec.ts     (integration test of the Cdp service)
  - cdp/app/scripts/deploy_service.js
  - erc20/app/scripts/deploy_service.js
  - an Erc20 test file and the README.

The CDP ledger engine itself (market registry, position ledger, interest
accrual, admin gate) is not part of the visible source; it is modelled
here from the specification (spec.md sections 3, 4, 7 and 9), as explicit
state passed through a total dispatch function that commits the returned
state on success and discards it entirely on error, exactly the
transaction model the specification prescribes.

Amounts are natural numbers; prices, collateral factors and accrual
indices are rationals (the spec's fixed-point decimals).  External ERC20
token transfers are out of scope per the spec (section 1): the engine is
their client, and transfer-in/out is modelled as succeeding.
-/

/-- Account and token identifiers: 20-byte ids, modelled as byte lists. -/
abbrev Address := List Nat

deriving instance DecidableEq for Except

/-! ### Embedding of the client-side call surface (the files under src)

Each call site in the JavaScript/TypeScript harness is embedded as the
list of argument expressions it passes.  The trailing `{gasLimit}` /
`{header: ...}` object is an RPC/deploy options object consumed by the
oasis client library, not an argument delivered to the contract method,
so it is distinguished from data arguments. -/

inductive JsArg where
  | str (s : String)
  | num (q : ℚ)
  | bytes (b : List Nat)
  | options
  deriving DecidableEq

/-- A call argument that is delivered to the contract (not the RPC options). -/
def JsArg.isData : JsArg → Bool
  | .options => false
  | _ => true

def JsArg.isStrArg : JsArg → Bool
  | .str _ => true
  | _ => false

def JsArg.isNumArg : JsArg → Bool
  | .num _ => true
  | _ => false

def JsArg.isBytesArg : JsArg → Bool
  | .bytes _ => true
  | _ => false

def JsArg.bytesLen : JsArg → Nat
  | .bytes b => b.length
  | _ => 0

/-- The caller-supplied inputs of a call: everything except the options object. -/
def dataArgs (call : List JsArg) : List JsArg :=
  call.filter JsArg.isData

/-- cdp/app/test/service.spec.ts line 24: `const aName = "oERC20_A"`. -/
def aName : String := "oERC20_A"

/-- cdp/app/test/service.spec.ts line 25: the 20-byte token address literal. -/
def aAddr : List Nat :=
  [248, 180, 118, 134, 45, 212, 188, 170, 171, 185, 136, 170, 90, 69, 157, 149, 227, 25, 72, 14]

/-- cdp/app/test/service.spec.ts line 26: `const aPrice = 350.0`. -/
def aPrice : ℚ := 350

/-- cdp/app/test/service.spec.ts line 11: `Cdp.deploy({header: {confidential: true}})`. -/
def cdpTestDeployArgs : List JsArg := [JsArg.options]

/-- cdp/app/scripts/deploy_service.js line 4: `Cdp.deploy({header: {confidential: true}})`. -/
def cdpScriptDeployArgs : List JsArg := [JsArg.options]

/-- cdp/app/test/service.spec.ts line 26:
`service.addMarket(aName, aPrice, aAddr, options)`. -/
def addMarketArgs : List JsArg :=
  [JsArg.str aName, JsArg.num aPrice, JsArg.bytes aAddr, JsArg.options]

/-- cdp/app/test/service.spec.ts line 28: `service.mmListed(aName, options)`. -/
def mmListedArgs : List JsArg := [JsArg.str aName, JsArg.options]

/-- cdp/app/test/service.spec.ts line 18: `service.cdpAddr(options)`. -/
def cdpAddrArgs : List JsArg := [JsArg.options]

/-- cdp/app/test/service.spec.ts line 19: `service.listAdmin(options)`. -/
def listAdminArgs : List JsArg := [JsArg.options]

/-- cdp/app/test/service.spec.ts line 31: `service.showAll(options)`. -/
def showAllArgs : List JsArg := [JsArg.options]

/-- erc20/app/test file: `Erc20Token.deploy(2000, {header: {confidential: false}})`. -/
def erc20TestDeployArgs : List JsArg := [JsArg.num 2000, JsArg.options]

/-- erc20/app/scripts/deploy_service.js lines 4-9:
`Erc20Token.deploy(INIT_SUPPLY, ...)` with `INIT_SUPPLY = 100000`. -/
def erc20ScriptDeployArgs : List JsArg := [JsArg.num 100000, JsArg.options]

/-! ### The CDP engine, modelled from the spec -/

/-- Modelled from the spec: the error kinds of section 7.  All are terminal
for the call; the dispatcher below discards the tentative state on error. -/
inductive CdpError where
  | Unauthorized
  | DuplicateMarket
  | NotFound
  | MarketNotListed
  | InsufficientCollateral
  | WouldUndercollateralize
  | NotLiquidatable
  | TransferFailed
  | ArithmeticOverflow
  deriving DecidableEq

/-- Modelled from the spec: a Market record (section 3), extended with the
per-market accrual index and its last-accrued timestamp (section 4.3). -/
structure Market where
  name : String
  referencePrice : ℚ
  tokenAddress : Address
  listed : Bool
  collateralFactor : ℚ
  accrualIndex : ℚ
  lastAccrued : Nat
  deriving DecidableEq

/-- Modelled from the spec: a Position (CDP) record, one aggregate position
per account (section 3).  Debt is denominated in the companion single-asset
pooled token (section 6), valued at par, so `debtPrincipal` is a debt value
as of the index snapshot.  The spec pairs the single `debtPrincipal` with a
single `debtAccrualIndexSnapshot`; the snapshot is of the accrual index of
the market the debt was borrowed against, so the position records that
market's name (`debtMarket`, empty while no borrow has happened) to be able
to apply the right index whenever the debt is read (sections 2 and 4.3:
debt is brought up to date before any collateral-ratio check). -/
structure Position where
  owner : Address
  collateralByMarket : List (String × Nat)
  debtPrincipal : ℚ
  debtAccrualIndexSnapshot : ℚ
  debtMarket : String
  openedAt : Nat
  deriving DecidableEq

/-- Modelled from the spec: the whole contract state as an explicit owned
struct (section 9), with AdminSet, market registry and position ledger as
fields.  `ratePerPeriod` is the per-period interest rate of the accrual
engine (section 4.3). -/
structure CdpState where
  selfAddr : Address
  admins : List Address
  markets : List Market
  positions : List Position
  ratePerPeriod : ℚ
  deriving DecidableEq

/-- Modelled from the spec: the minimum health threshold.  Health is
risk-weighted collateral value over debt value and the safety condition is
that the weighted collateral covers the debt (section 3 invariants; the
borrow scenario in section 8 pins the threshold at 1). -/
def minCollateralRatio : ℚ := 1

/-- Modelled from the spec: freshly deployed state.  The constructor takes
no caller-supplied inputs (the deploy call passes only header options);
the environment supplies the contract's own address and the deployer, who
becomes the sole admin.  The ledger and registry start empty. -/
def initState (self deployer : Address) : CdpState :=
  { selfAddr := self
    admins := [deployer]
    markets := []
    positions := []
    ratePerPeriod := 0 }

/-- Registry lookup by unique market name (section 4.1 `getMarket`). -/
def lookupMarket (s : CdpState) (name : String) : Option Market :=
  s.markets.find? (fun m => m.name == name)

/-- Modelled from the spec: `mmListed(name) -> bool` delegates to the
registry's listed flag (section 4.5). -/
def mmListed (s : CdpState) (name : String) : Bool :=
  match lookupMarket s name with
  | some m => m.listed
  | none => false

/-- Modelled from the spec: `showAll() -> sequence of all positions`. -/
def showAll (s : CdpState) : List Position :=
  s.positions

/-- Modelled from the spec: `cdpAddr() -> this contract's own address`. -/
def cdpAddr (s : CdpState) : Address :=
  s.selfAddr

/-- Modelled from the spec: `listAdmin() -> ordered sequence of admins`. -/
def listAdmin (s : CdpState) : List Address :=
  s.admins

/-- Modelled from the spec: interest accrual for one market (section 4.3).
Elapsed periods since the last update are counted; a zero elapsed interval
is a no-op (idempotence within a transaction); otherwise the index grows
by the compounded per-period rate and the timestamp advances.  The
distribution of the interest delta to investor shares is out of the
modelled scope (no claim touches investor accounting). -/
def Market.accrue (rate : ℚ) (now : Nat) (m : Market) : Market :=
  let elapsed := now - m.lastAccrued
  if elapsed = 0 then m
  else
    { m with
      accrualIndex := m.accrualIndex * (1 + rate) ^ elapsed
      lastAccrued := now }

/-- Accrue the named market inside the state (spec section 4.3 `accrue(market)`). -/
def accrueMarket (s : CdpState) (name : String) (now : Nat) : CdpState :=
  { s with
    markets := s.markets.map (fun m => if m.name == name then m.accrue s.ratePerPeriod now else m) }

/-- Accrue every market (used by `liquidate`, which reads the whole position). -/
def accrueAllMarkets (s : CdpState) (now : Nat) : CdpState :=
  { s with markets := s.markets.map (fun m => m.accrue s.ratePerPeriod now) }

/-- Ledger lookup of an account's position. -/
def findPosition (s : CdpState) (owner : Address) : Option Position :=
  s.positions.find? (fun p => p.owner == owner)

/-- The account's position, or the empty position about to be created on a
first deposit (section 3: created on first deposit). -/
def getPosition (s : CdpState) (owner : Address) (now : Nat) : Position :=
  match findPosition s owner with
  | some p => p
  | none =>
    { owner := owner
      collateralByMarket := []
      debtPrincipal := 0
      debtAccrualIndexSnapshot := 1
      debtMarket := ""
      openedAt := now }

/-- Store an account's position, replacing any previous one. -/
def setPosition (s : CdpState) (p : Position) : CdpState :=
  { s with positions := p :: s.positions.filter (fun q => !(q.owner == p.owner)) }

/-- Collateral the position holds in a market. -/
def collateralOf (p : Position) (market : String) : Nat :=
  match p.collateralByMarket.find? (fun c => c.1 == market) with
  | some c => c.2
  | none => 0

/-- Set the position's collateral in a market. -/
def setCollateral (p : Position) (market : String) (amount : Nat) : Position :=
  { p with
    collateralByMarket :=
      (market, amount) :: p.collateralByMarket.filter (fun c => !(c.1 == market)) }

/-- Modelled from the spec: the risk-weighted collateral value, the sum over
markets of collateral_amount * referencePrice * collateralFactor
(section 4.2 health-ratio computation). -/
def riskWeightedCollateralValue (s : CdpState) (p : Position) : ℚ :=
  (p.collateralByMarket.map (fun c =>
    match lookupMarket s c.1 with
    | some m => (c.2 : ℚ) * m.referencePrice * m.collateralFactor
    | none => 0)).sum

/-- The position's debt brought up to date against the market's accrual
index, relative to the position's snapshot (section 4.3). -/
def currentDebt (m : Market) (p : Position) : ℚ :=
  p.debtPrincipal * m.accrualIndex / p.debtAccrualIndexSnapshot

/-- Modelled from the spec: the position's up-to-date debt value (debt is
in the pooled single-asset token at par), read by applying the accrual
index of the market the debt rides on relative to the position's snapshot
(section 4.3: every debt read applies the index).  With no debt market on
record the principal is the value. -/
def debtValue (s : CdpState) (p : Position) : ℚ :=
  match lookupMarket s p.debtMarket with
  | some m => currentDebt m p
  | none => p.debtPrincipal

/-- Modelled from the spec: the safety condition `health-ratio ≥ minimum
threshold` over the up-to-date debt value, stated without division so that
a position with zero debt is always safe (infinite health). -/
def healthOk (s : CdpState) (p : Position) : Bool :=
  decide (minCollateralRatio * debtValue s p ≤ riskWeightedCollateralValue s p)

/-- Fold the accrued interest into the position's principal and re-base its
snapshot to the debt market's current index, so that the stored principal
is the up-to-date debt (used by the debt-mutating operations). -/
def refreshDebt (s : CdpState) (p : Position) : Position :=
  match lookupMarket s p.debtMarket with
  | some m =>
    { p with
      debtPrincipal := currentDebt m p
      debtAccrualIndexSnapshot := m.accrualIndex }
  | none => p

/-- Modelled from the spec: the external operations of sections 4 and 6.
Each carries the transaction's caller and (where the accrual engine is
involved) the transaction's timestamp. -/
inductive Op where
  | addMarket (caller : Address) (name : String) (price : ℚ)
      (tokenAddress : Address) (collateralFactor : ℚ) (now : Nat)
  | setListed (caller : Address) (name : String) (b : Bool)
  | setPrice (caller : Address) (name : String) (price : ℚ)
  | deposit (caller : Address) (market : String) (amount : Nat) (now : Nat)
  | withdraw (caller : Address) (market : String) (amount : Nat) (now : Nat)
  | borrow (caller : Address) (market : String) (amount : Nat) (now : Nat)
  | repay (caller : Address) (market : String) (amount : Nat) (now : Nat)
  | liquidate (caller : Address) (owner : Address) (now : Nat)

/-- The transaction sender of an operation. -/
def Op.caller : Op → Address
  | .addMarket c _ _ _ _ _ => c
  | .setListed c _ _ => c
  | .setPrice c _ _ => c
  | .deposit c _ _ _ => c
  | .withdraw c _ _ _ => c
  | .borrow c _ _ _ => c
  | .repay c _ _ _ => c
  | .liquidate c _ _ => c

/-- The mutating Market-Registry calls (section 4.1), all admin-gated. -/
def Op.isRegistryMutation : Op → Bool
  | .addMarket _ _ _ _ _ _ => true
  | .setListed _ _ _ => true
  | .setPrice _ _ _ => true
  | _ => false

/-- Modelled from the spec: one atomic call, returning either the new state
or the error that rejects the transaction (sections 4, 7).
  - `addMarket`: admin-gated; duplicate names refused; new markets start
    listed with accrual index 1 (section 4.1).
  - `setListed` / `setPrice`: admin-gated registry mutations.
  - `deposit`: requires a listed market, accrues it, credits collateral
    (the token transfer-in is out of scope and modelled as succeeding).
  - `withdraw`: accrues the named market and the position's debt market
    (bringing the debt's index up to date before any collateral-ratio
    check, sections 2 and 4.3), debits collateral, fails
    `InsufficientCollateral` when the amount exceeds holdings, and
    re-checks health — over the up-to-date debt value — before releasing
    funds (section 4.2).
  - `borrow`: accrues likewise, folds accrued interest into the principal
    (`refreshDebt`), adds the amount, re-bases the snapshot to the
    borrowed market, and commits only when the resulting position stays
    healthy.
  - `repay`: accrues likewise, folds accrued interest into the principal,
    then reduces debt by min(amount, owed); excess is returned to the
    caller, never absorbed.
  - `liquidate`: accrues every market so the position's debt reads up to
    date; permitted only when health is strictly below the threshold;
    seizes the collateral and discharges the debt. -/
def runOp : Op → CdpState → Except CdpError CdpState
  | .addMarket caller name price tokenAddress collateralFactor now, s =>
    if caller ∈ s.admins then
      if (lookupMarket s name).isSome then .error .DuplicateMarket
      else
        .ok { s with
          markets := s.markets ++
            [{ name := name
               referencePrice := price
               tokenAddress := tokenAddress
               listed := true
               collateralFactor := collateralFactor
               accrualIndex := 1
               lastAccrued := now }] }
    else .error .Unauthorized
  | .setListed caller name b, s =>
    if caller ∈ s.admins then
      if (lookupMarket s name).isSome then
        .ok { s with
          markets := s.markets.map (fun m => if m.name == name then { m with listed := b } else m) }
      else .error .NotFound
    else .error .Unauthorized
  | .setPrice caller name price, s =>
    if caller ∈ s.admins then
      if (lookupMarket s name).isSome then
        .ok { s with
          markets := s.markets.map
            (fun m => if m.name == name then { m with referencePrice := price } else m) }
      else .error .NotFound
    else .error .Unauthorized
  | .deposit caller market amount now, s =>
    let s1 := accrueMarket s market now
    match lookupMarket s1 market with
    | none => .error .NotFound
    | some m1 =>
      if m1.listed then
        let p := getPosition s1 caller now
        .ok (setPosition s1 (setCollateral p market (collateralOf p market + amount)))
      else .error .MarketNotListed
  | .withdraw caller market amount now, s =>
    let p0 := getPosition s caller now
    let s1 := accrueMarket (accrueMarket s market now) p0.debtMarket now
    match lookupMarket s1 market with
    | none => .error .NotFound
    | some _ =>
      if collateralOf p0 market < amount then .error .InsufficientCollateral
      else
        let p' := setCollateral p0 market (collateralOf p0 market - amount)
        let s2 := setPosition s1 p'
        if healthOk s2 p' then .ok s2 else .error .WouldUndercollateralize
  | .borrow caller market amount now, s =>
    let p0 := getPosition s caller now
    let s1 := accrueMarket (accrueMarket s market now) p0.debtMarket now
    match lookupMarket s1 market with
    | none => .error .NotFound
    | some m1 =>
      let p := refreshDebt s1 p0
      let p' :=
        { p with
          debtPrincipal := p.debtPrincipal + (amount : ℚ)
          debtAccrualIndexSnapshot := m1.accrualIndex
          debtMarket := market }
      let s2 := setPosition s1 p'
      if healthOk s2 p' then .ok s2 else .error .WouldUndercollateralize
  | .repay caller market amount now, s =>
    let p0 := getPosition s caller now
    let s1 := accrueMarket (accrueMarket s market now) p0.debtMarket now
    match lookupMarket s1 market with
    | none => .error .NotFound
    | some _ =>
      let p := refreshDebt s1 p0
      let pay := min (amount : ℚ) p.debtPrincipal
      .ok (setPosition s1 { p with debtPrincipal := p.debtPrincipal - pay })
  | .liquidate _ owner now, s =>
    let s1 := accrueAllMarkets s now
    match findPosition s1 owner with
    | none => .error .NotFound
    | some p =>
      if healthOk s1 p then .error .NotLiquidatable
      else .ok (setPosition s1 { p with collateralByMarket := [], debtPrincipal := 0 })

/-- Modelled from the spec: the single-threaded synchronous dispatch of
section 9 — apply the operation to the whole state and either commit the
returned state or discard it entirely on error (atomic all-or-nothing
execution). -/
def dispatch (op : Op) (s : CdpState) : CdpState :=
  match runOp op s with
  | .ok s' => s'
  | .error _ => s

/-- Well-formed contract state: a non-negative interest rate and
non-negative accrual indices (both hold in every reachable state; indices
start at 1 and only get multiplied by factors of at least 1). -/
def WF (s : CdpState) : Prop :=
  0 ≤ s.ratePerPeriod ∧ ∀ m ∈ s.markets, 0 ≤ m.accrualIndex

/-! ### Concrete scenario states

These replay the integration test's session against the modelled engine:
the deployer (who is the admin) deploys the contract, adds the market
`"oERC20_A"` at price 350.0 with the test's token address and collateral
factor 0.5, and a user deposits 10 units of collateral — the setting of
the spec's borrow scenario (section 8).  Each state is written out
literally; the lemmas `afterAddMarket_step` and `demoState_step` prove it
reachable from the freshly deployed state by the corresponding calls. -/

/-- The deployer, who becomes the admin at construction. -/
def adminA : Address := [1]

/-- A borrower account. -/
def userA : Address := [2]

/-- The contract's own address. -/
def ctrA : Address := [3]

/-- The market the test's `addMarket` call creates, with the collateral
factor 0.5 of the spec's borrow scenario. -/
def marketA : Market :=
  { name := aName
    referencePrice := aPrice
    tokenAddress := aAddr
    listed := true
    collateralFactor := 1 / 2
    accrualIndex := 1
    lastAccrued := 0 }

/-- State right after the admin's `addMarket` call of the test. -/
def afterAddMarket : CdpState :=
  { selfAddr := ctrA
    admins := [adminA]
    markets := [marketA]
    positions := []
    ratePerPeriod := 0 }

/-- The borrower's position holding 10 units of collateral and no debt. -/
def posA10 : Position :=
  { owner := userA
    collateralByMarket := [(aName, 10)]
    debtPrincipal := 0
    debtAccrualIndexSnapshot := 1
    debtMarket := ""
    openedAt := 0 }

/-- State after the borrower deposits 10 units of collateral. -/
def demoState : CdpState :=
  { afterAddMarket with positions := [posA10] }

/-! ### Derived scenario states

Further concrete states used by the theorems below.  Each is reachable
from `demoState` by the calls proved in the step lemmas that follow. -/

/-- The market after an admin price cut from 350 to 100. -/
def marketACut : Market := { marketA with referencePrice := 100 }

/-- The borrower's position carrying 1750 units of debt (a borrow taken at
the exact health limit: 10 * 350 * 0.5 = 1750). -/
def posA10Debt : Position := { posA10 with debtPrincipal := 1750, debtMarket := aName }

/-- State after the borrower borrowed 1750 and the admin cut the price to
100: the position is now under water (weighted collateral 500 < debt 1750). -/
def cutState : CdpState :=
  { afterAddMarket with markets := [marketACut], positions := [posA10Debt] }

/-- The under-water position after one more unit of collateral is deposited. -/
def posA11Debt : Position := { posA10Debt with collateralByMarket := [(aName, 11)] }

/-- `cutState` after a successful deposit of 1 unit of collateral. -/
def cutDeposited : CdpState := { cutState with positions := [posA11Debt] }

/-- The borrower's position after borrowing 1000 (within the limit). -/
def posA10Borrowed : Position := { posA10 with debtPrincipal := 1000, debtMarket := aName }

/-- `demoState` after the successful borrow of 1000. -/
def demoBorrowedState : CdpState := { afterAddMarket with positions := [posA10Borrowed] }

/-- The market after an admin re-prices it to 340. -/
def marketA340 : Market := { marketA with referencePrice := 340 }

/-! ### Supporting lemmas -/

/-- A rejected call commits nothing: the dispatcher returns the prior state. -/
lemma dispatch_of_error {op : Op} {s : CdpState} {e : CdpError}
    (h : runOp op s = .error e) : dispatch op s = s := by
  simp [dispatch, h]

/-- A successful call commits the state the operation returned. -/
lemma dispatch_of_ok {op : Op} {s s' : CdpState}
    (h : runOp op s = .ok s') : dispatch op s = s' := by
  simp [dispatch, h]

/-- Accrual never renames a market. -/
lemma accrue_name (r : ℚ) (t : Nat) (m : Market) : (Market.accrue r t m).name = m.name := by
  simp only [Market.accrue]
  split <;> rfl

/-- Accruing twice at the same timestamp is the same as accruing once: the
first call advances `lastAccrued` to `now`, so the second sees a zero
elapsed interval and is a no-op. -/
lemma accrue_twice (r : ℚ) (now : Nat) (m : Market) :
    Market.accrue r now (Market.accrue r now m) = Market.accrue r now m := by
  unfold Market.accrue
  by_cases h : now - m.lastAccrued = 0
  · simp [h]
  · simp [h, Nat.sub_self]

/-- With a non-negative rate, accrual never lowers a non-negative index. -/
lemma accrue_index_le (r : ℚ) (hr : 0 ≤ r) (t : Nat) (m : Market) (hm : 0 ≤ m.accrualIndex) :
    m.accrualIndex ≤ (Market.accrue r t m).accrualIndex := by
  unfold Market.accrue
  by_cases h : t - m.lastAccrued = 0
  · simp [h]
  · simp only [h, if_false]
    have h1 : (1 : ℚ) ≤ (1 + r) ^ (t - m.lastAccrued) := one_le_pow₀ (by linarith)
    calc m.accrualIndex = m.accrualIndex * 1 := (mul_one _).symm
      _ ≤ m.accrualIndex * (1 + r) ^ (t - m.lastAccrued) := mul_le_mul_of_nonneg_left h1 hm

/-- Looking a name up through a name-preserving transformation of the
registry finds the transformed entry. -/
lemma find?_name_map (g : Market → Market) (hg : ∀ m, (g m).name = m.name)
    (L : List Market) (name : String) :
    (L.map g).find? (fun m => m.name == name) = (L.find? (fun m => m.name == name)).map g := by
  induction L with
  | nil => rfl
  | cons a t ih =>
    by_cases h : (a.name == name) = true
    · simp [List.find?_cons, hg a, h]
    · simp only [Bool.not_eq_true] at h
      simp [List.find?_cons, hg a, h, ih]

/-- Transfer an index bound through a name-preserving registry map. -/
lemma le_of_lookup_map {s : CdpState} {g : Market → Market} {name : String} {m m' : Market}
    (hg : ∀ x, (g x).name = x.name)
    (h1 : lookupMarket s name = some m)
    (h2 : (s.markets.map g).find? (fun x => x.name == name) = some m')
    (hle : m.accrualIndex ≤ (g m).accrualIndex) :
    m.accrualIndex ≤ m'.accrualIndex := by
  rw [find?_name_map g hg] at h2
  unfold lookupMarket at h1
  rw [h1] at h2
  cases h2
  exact hle

/-- The single-market accrual map never lowers a non-negative index. -/
lemma accrue_if_index_le (s : CdpState) (hr : 0 ≤ s.ratePerPeriod) (nm : String) (t : Nat)
    (m : Market) (hm : 0 ≤ m.accrualIndex) :
    m.accrualIndex ≤
      ((fun x => if x.name == nm then x.accrue s.ratePerPeriod t else x) m).accrualIndex := by
  by_cases h : (m.name == nm) = true
  · simpa [h] using accrue_index_le s.ratePerPeriod hr t m hm
  · simp only [Bool.not_eq_true] at h
    simp [h]

/-- Accrual keeps a non-negative index non-negative. -/
lemma accrue_index_nonneg (r : ℚ) (hr : 0 ≤ r) (t : Nat) (m : Market)
    (hm : 0 ≤ m.accrualIndex) : 0 ≤ (Market.accrue r t m).accrualIndex :=
  le_trans hm (accrue_index_le r hr t m hm)

/-- Well-formedness survives accruing one market. -/
lemma WF_accrueMarket (s : CdpState) (name : String) (now : Nat) (h : WF s) :
    WF (accrueMarket s name now) := by
  obtain ⟨hr, hidx⟩ := h
  refine ⟨hr, ?_⟩
  intro m' hm'
  simp only [accrueMarket, List.mem_map] at hm'
  obtain ⟨m, hm, rfl⟩ := hm'
  by_cases hn : (m.name == name) = true
  · simpa [hn] using accrue_index_nonneg s.ratePerPeriod hr now m (hidx m hm)
  · simp only [Bool.not_eq_true] at hn
    simpa [hn] using hidx m hm

/-- Well-formedness survives accruing every market. -/
lemma WF_accrueAllMarkets (s : CdpState) (now : Nat) (h : WF s) :
    WF (accrueAllMarkets s now) := by
  obtain ⟨hr, hidx⟩ := h
  refine ⟨hr, ?_⟩
  intro m' hm'
  simp only [accrueAllMarkets, List.mem_map] at hm'
  obtain ⟨m, hm, rfl⟩ := hm'
  exact accrue_index_nonneg s.ratePerPeriod hr now m (hidx m hm)

/-- Well-formedness is an invariant of every dispatched call, so the
hypotheses of the accrual-monotonicity theorem hold in every state
reachable from deployment. -/
lemma WF_dispatch (op : Op) (s : CdpState) (h : WF s) : WF (dispatch op s) := by
  cases hrun : runOp op s with
  | error e => rw [dispatch_of_error hrun]; exact h
  | ok s1 =>
    rw [dispatch_of_ok hrun]
    obtain ⟨hr, hidx⟩ := h
    cases op with
    | addMarket c nm p tk f t =>
      simp only [runOp] at hrun
      split at hrun
      · split at hrun
        · cases hrun
        · cases hrun
          refine ⟨hr, ?_⟩
          intro m' hm'
          simp only [List.mem_append, List.mem_singleton] at hm'
          rcases hm' with hm' | rfl
          · exact hidx m' hm'
          · norm_num
      · cases hrun
    | setListed c nm b =>
      simp only [runOp] at hrun
      split at hrun
      · split at hrun
        · cases hrun
          refine ⟨hr, ?_⟩
          intro m' hm'
          simp only [List.mem_map] at hm'
          obtain ⟨m, hm, rfl⟩ := hm'
          by_cases hn : (m.name == nm) = true
          · simpa [hn] using hidx m hm
          · simp only [Bool.not_eq_true] at hn
            simpa [hn] using hidx m hm
        · cases hrun
      · cases hrun
    | setPrice c nm p =>
      simp only [runOp] at hrun
      split at hrun
      · split at hrun
        · cases hrun
          refine ⟨hr, ?_⟩
          intro m' hm'
          simp only [List.mem_map] at hm'
          obtain ⟨m, hm, rfl⟩ := hm'
          by_cases hn : (m.name == nm) = true
          · simpa [hn] using hidx m hm
          · simp only [Bool.not_eq_true] at hn
            simpa [hn] using hidx m hm
        · cases hrun
      · cases hrun
    | deposit c mk a t =>
      simp only [runOp] at hrun
      split at hrun
      · cases hrun
      · split at hrun
        · cases hrun
          exact WF_accrueMarket s mk t ⟨hr, hidx⟩
        · cases hrun
    | withdraw c mk a t =>
      simp only [runOp] at hrun
      split at hrun
      · cases hrun
      · split at hrun
        · cases hrun
        · split at hrun
          · cases hrun
            exact WF_accrueMarket _ _ t (WF_accrueMarket s mk t ⟨hr, hidx⟩)
          · cases hrun
    | borrow c mk a t =>
      simp only [runOp] at hrun
      split at hrun
      · cases hrun
      · split at hrun
        · cases hrun
          exact WF_accrueMarket _ _ t (WF_accrueMarket s mk t ⟨hr, hidx⟩)
        · cases hrun
    | repay c mk a t =>
      simp only [runOp] at hrun
      split at hrun
      · cases hrun
      · cases hrun
        exact WF_accrueMarket _ _ t (WF_accrueMarket s mk t ⟨hr, hidx⟩)
    | liquidate c o t =>
      simp only [runOp] at hrun
      split at hrun
      · cases hrun
      · split at hrun
        · cases hrun
        · cases hrun
          exact WF_accrueAllMarkets s t ⟨hr, hidx⟩

/-- The freshly deployed state is well-formed. -/
lemma WF_initState (self deployer : Address) : WF (initState self deployer) := by
  refine ⟨le_refl 0, ?_⟩
  intro m hm
  simp [initState] at hm

/-- The position read or created for a caller belongs to that caller. -/
lemma getPosition_owner (s : CdpState) (c : Address) (t : Nat) :
    (getPosition s c t).owner = c := by
  unfold getPosition
  cases h : findPosition s c with
  | none => rfl
  | some q =>
    unfold findPosition at h
    have hq := List.find?_some h
    simpa using hq

/-- After storing a position, looking its owner up finds exactly it. -/
lemma findPosition_setPosition_eq (s : CdpState) (q : Position) (c : Address)
    (hq : q.owner = c) : findPosition (setPosition s q) c = some q := by
  subst hq
  unfold findPosition setPosition
  simp [List.find?_cons]

/-- Refreshing the debt never changes the position's owner. -/
lemma refreshDebt_owner (s : CdpState) (p : Position) : (refreshDebt s p).owner = p.owner := by
  unfold refreshDebt
  split <;> rfl

/-- Storing a position does not change registry lookups. -/
lemma lookupMarket_setPosition (s : CdpState) (p : Position) (name : String) :
    lookupMarket (setPosition s p) name = lookupMarket s name := rfl

/-- A registry lookup after accruing one market finds the accrued entry. -/
lemma lookupMarket_accrueMarket (s : CdpState) (nm : String) (t : Nat) (name : String) :
    lookupMarket (accrueMarket s nm t) name =
      (lookupMarket s name).map
        (fun x => if x.name == nm then x.accrue s.ratePerPeriod t else x) :=
  find?_name_map _ (fun x => by by_cases h : (x.name == nm) = true <;> simp [h, accrue_name])
    s.markets name

/-- Index bound through the two accrual passes of the position-ledger
operations (the named market, then the position's debt market). -/
lemma accrue_twostep_le (s : CdpState) (hr : 0 ≤ s.ratePerPeriod) (mk dm : String) (t : Nat)
    {name : String} {m m' : Market}
    (h1 : lookupMarket s name = some m) (hm0 : 0 ≤ m.accrualIndex)
    (h2 : lookupMarket (accrueMarket (accrueMarket s mk t) dm t) name = some m') :
    m.accrualIndex ≤ m'.accrualIndex := by
  rw [lookupMarket_accrueMarket, lookupMarket_accrueMarket, h1] at h2
  simp only [Option.map_some'] at h2
  cases h2
  calc m.accrualIndex
      ≤ ((fun x => if x.name == mk then x.accrue s.ratePerPeriod t else x) m).accrualIndex :=
        accrue_if_index_le s hr mk t m hm0
    _ ≤ _ :=
        accrue_if_index_le (accrueMarket s mk t) hr dm t _
          (le_trans hm0 (accrue_if_index_le s hr mk t m hm0))

/-- Step lemma: on the freshly deployed contract, the admin's `addMarket`
call of the integration test succeeds and produces `afterAddMarket`. -/
lemma afterAddMarket_step :
    runOp (.addMarket adminA aName aPrice aAddr (1 / 2) 0) (initState ctrA adminA) =
      .ok afterAddMarket := by
  simp [runOp, initState, lookupMarket, afterAddMarket, marketA]

/-- Step lemma: the borrower's deposit of 10 units reaches `demoState`. -/
lemma demoState_step :
    runOp (.deposit userA aName 10 0) afterAddMarket = .ok demoState := by
  simp [runOp, afterAddMarket, demoState, marketA, accrueMarket, lookupMarket,
    getPosition, findPosition, setPosition, setCollateral, collateralOf,
    Market.accrue, posA10]

/-- Step lemma: borrowing 1750 at the exact health limit succeeds. -/
lemma cut_step1 : runOp (.borrow userA aName 1750 0) demoState =
    .ok { afterAddMarket with positions := [posA10Debt] } := by
  simp [runOp, demoState, afterAddMarket, marketA, posA10, posA10Debt, accrueMarket,
    Market.accrue, lookupMarket, getPosition, findPosition, setPosition, setCollateral,
    collateralOf, healthOk, currentDebt, debtValue, refreshDebt, riskWeightedCollateralValue,
    minCollateralRatio, aName, aPrice, List.find?]
  norm_num

/-- Step lemma: the admin's price cut to 100 reaches `cutState`, where the
position is under water. -/
lemma cut_step2 : runOp (.setPrice adminA aName 100)
    { afterAddMarket with positions := [posA10Debt] } = .ok cutState := by
  simp [runOp, afterAddMarket, marketA, marketACut, cutState, lookupMarket, List.find?]

/-- A market whose accrual index has grown to 2 since a position's
snapshot was taken (time 7, price 10, factor 0.5). -/
def mStale : Market :=
  { name := aName
    referencePrice := 10
    tokenAddress := aAddr
    listed := true
    collateralFactor := 1 / 2
    accrualIndex := 2
    lastAccrued := 7 }

/-- A position holding 120 units of collateral (worth 600 risk-weighted at
`mStale`) whose recorded principal 500 was snapshotted at index 1, so its
up-to-date debt is 500 * 2 / 1 = 1000. -/
def pStale : Position :=
  { owner := userA
    collateralByMarket := [(aName, 120)]
    debtPrincipal := 500
    debtAccrualIndexSnapshot := 1
    debtMarket := aName
    openedAt := 0 }

/-- A state pairing `mStale` with `pStale`. -/
def sStale : CdpState :=
  { selfAddr := ctrA
    admins := [adminA]
    markets := [mStale]
    positions := [pStale]
    ratePerPeriod := 0 }

/-- The health check reads the debt brought up to date, not the stale
principal: withdrawing even nothing from `pStale` is rejected, because the
accrued debt 1000 exceeds the whole collateral value 600 (with the stale
principal 500 the check would wrongly pass). -/
lemma withdraw_stale_debt_rejected :
    runOp (.withdraw userA aName 0 7) sStale = .error .WouldUndercollateralize ∧
    runOp (.liquidate adminA userA 7) sStale ≠ .error .NotLiquidatable := by
  constructor
  · simp [runOp, sStale, mStale, pStale, accrueMarket, Market.accrue, lookupMarket,
      getPosition, findPosition, setPosition, setCollateral, collateralOf, healthOk,
      currentDebt, debtValue, refreshDebt, riskWeightedCollateralValue,
      minCollateralRatio, aName, List.find?]
    norm_num
  · simp [runOp, sStale, mStale, pStale, accrueAllMarkets, Market.accrue, lookupMarket,
      getPosition, findPosition, setPosition, healthOk, currentDebt, debtValue,
      riskWeightedCollateralValue, minCollateralRatio, aName, List.find?]
    norm_num

/-! ### Claim theorems -/

/-- Claim C1, counterexample to the claim as stated.  `deposit` does not
re-check health (per the spec it can only fail with `MarketNotListed` or
`TransferFailed`), so on a position already under water — reachable by
borrowing 1750 at the exact limit and an admin price cut from 350 to 100,
see `cut_step1` and `cut_step2` — a deposit of one more unit succeeds and
leaves the position's health ratio below the minimum threshold: weighted
collateral 11 * 100 * 0.5 = 550 < 1750 = debt value. -/
theorem deposit_leaves_position_under_threshold :
    runOp (.deposit userA aName 1 0) cutState = .ok cutDeposited ∧
    findPosition cutDeposited userA = some posA11Debt ∧
    ¬ (minCollateralRatio * debtValue cutDeposited posA11Debt ≤
        riskWeightedCollateralValue cutDeposited posA11Debt) := by
  refine ⟨?_, ?_, ?_⟩
  · simp [runOp, cutState, cutDeposited, afterAddMarket, marketA, marketACut, posA10,
      posA10Debt, posA11Debt, accrueMarket, Market.accrue, lookupMarket, getPosition,
      findPosition, setPosition, setCollateral, collateralOf, List.find?]
  · simp [findPosition, cutDeposited, cutState, afterAddMarket, posA11Debt, posA10Debt,
      posA10, List.find?]
  · simp [cutDeposited, cutState, afterAddMarket, marketA, marketACut, posA11Debt,
      posA10Debt, posA10, debtValue, currentDebt, riskWeightedCollateralValue,
      minCollateralRatio, lookupMarket, aName, List.find?]
    norm_num

/-- Claim C1, amended.  For the two operations that enforce the
post-condition — `withdraw` and `borrow` — every successful call leaves the
caller's position with health ratio at least the minimum threshold: the
risk-weighted collateral value covers the up-to-date debt value (the debt
is brought up to date against its market's accrual index before the check,
see `withdraw_stale_debt_rejected`).  `deposit` and `repay` do not re-check
health and admit the counterexample above. -/
theorem health_enforced_after_withdraw_borrow (s s' : CdpState) (caller : Address)
    (market : String) (amount now : Nat) (p : Position)
    (hok : runOp (.withdraw caller market amount now) s = .ok s' ∨
           runOp (.borrow caller market amount now) s = .ok s')
    (hp : findPosition s' caller = some p) :
    minCollateralRatio * debtValue s' p ≤ riskWeightedCollateralValue s' p := by
  rcases hok with h | h
  · simp only [runOp] at h
    split at h
    · cases h
    · split at h
      · cases h
      · split at h
        · rename_i hcond
          cases h
          rw [findPosition_setPosition_eq] at hp
          · cases hp
            exact of_decide_eq_true hcond
          · exact getPosition_owner _ _ _
        · cases h
  · simp only [runOp] at h
    split at h
    · cases h
    · split at h
      · rename_i hcond
        cases h
        rw [findPosition_setPosition_eq] at hp
        · cases hp
          exact of_decide_eq_true hcond
        · exact (refreshDebt_owner _ _).trans (getPosition_owner _ _ _)
      · cases h

/-- Claim C1, witness: the borrower's successful borrow of 1000 against
1750 of borrowing power leaves a position the theorem certifies healthy. -/
theorem health_enforced_witness :
    minCollateralRatio * debtValue demoBorrowedState posA10Borrowed ≤
      riskWeightedCollateralValue demoBorrowedState posA10Borrowed :=
  health_enforced_after_withdraw_borrow demoState demoBorrowedState userA aName 1000 0
    posA10Borrowed
    (Or.inr (by
      simp [runOp, demoState, afterAddMarket, marketA, posA10, posA10Borrowed,
        demoBorrowedState, accrueMarket, Market.accrue, lookupMarket, getPosition,
        findPosition, setPosition, setCollateral, collateralOf, healthOk, currentDebt,
        debtValue, refreshDebt, riskWeightedCollateralValue, minCollateralRatio, aName,
        aPrice, List.find?]
      norm_num))
    (by
      simp [findPosition, demoBorrowedState, afterAddMarket, posA10Borrowed, posA10,
        List.find?])

/-- Claim C2: a call that fails with any error kind commits nothing — the
dispatched state is exactly the prior state (atomic revert, no
partial-success mode). -/
theorem failed_call_is_noop (op : Op) (s : CdpState) (e : CdpError)
    (h : runOp op s = .error e) : dispatch op s = s :=
  dispatch_of_error h

/-- Claim C2, witness: a non-admin `addMarket` attempt fails and the
dispatched state is unchanged. -/
theorem failed_call_is_noop_witness :
    dispatch (.addMarket userA aName aPrice aAddr (1 / 2) 0) demoState = demoState :=
  failed_call_is_noop _ _ .Unauthorized (by decide)

/-- Claim C3: with 10 units of collateral in the market priced 350.0 with
collateral factor 0.5 and no other collateral or debt, every borrow of at
most 1750 units of debt value succeeds, and the borrow request pushing
debt value to 1751 fails with `WouldUndercollateralize` — the health
formula sums collateral_amount * referencePrice * collateralFactor over
markets and compares with the debt value. -/
theorem borrow_up_to_limit (a : Nat) (ha : a ≤ 1750) :
    (∃ s', runOp (.borrow userA aName a 0) demoState = .ok s') ∧
    runOp (.borrow userA aName 1751 0) demoState = .error .WouldUndercollateralize := by
  constructor
  · have hcast : ((a : ℚ)) ≤ 1750 := by exact_mod_cast ha
    simp [runOp, demoState, afterAddMarket, marketA, posA10, accrueMarket, Market.accrue,
      lookupMarket, getPosition, findPosition, setPosition, setCollateral, collateralOf,
      healthOk, currentDebt, debtValue, refreshDebt, riskWeightedCollateralValue,
      minCollateralRatio, aName, List.find?]
    rw [if_pos]
    · exact ⟨_, rfl⟩
    · rw [aPrice]
      norm_num
      linarith
  · simp [runOp, demoState, afterAddMarket, marketA, posA10, accrueMarket, Market.accrue,
      lookupMarket, getPosition, findPosition, setPosition, setCollateral, collateralOf,
      healthOk, currentDebt, debtValue, refreshDebt, riskWeightedCollateralValue,
      minCollateralRatio, aName, List.find?]
    rw [aPrice]
    norm_num

/-- Claim C3, witness: the limit case — borrowing exactly 1750 succeeds
while 1751 is rejected. -/
theorem borrow_up_to_limit_witness :
    (∃ s', runOp (.borrow userA aName 1750 0) demoState = .ok s') ∧
    runOp (.borrow userA aName 1751 0) demoState = .error .WouldUndercollateralize :=
  borrow_up_to_limit 1750 (by norm_num)

/-- Claim C4: accruing a market twice at the same timestamp — zero elapsed
time between the calls — leaves the state, and in particular the market's
accrual index, exactly as after the first call: `accrue` is idempotent
within a single transaction. -/
theorem accrue_zero_elapsed_idempotent (s : CdpState) (name : String) (now : Nat) :
    accrueMarket (accrueMarket s name now) name now = accrueMarket s name now := by
  unfold accrueMarket
  simp only [List.map_map]
  congr 1
  apply List.map_congr_left
  intro m _
  simp only [Function.comp]
  by_cases h : (m.name == name) = true
  · simp [h, accrue_name, accrue_twice]
  · simp [h]

/-- Claim C5: over any dispatched operation from a well-formed state
(non-negative rate and indices, an invariant of every reachable state by
`WF_initState` and `WF_dispatch`), the accrual index of every market still
present never decreases. -/
theorem accrual_index_never_decreases (op : Op) (s : CdpState) (hWF : WF s)
    (name : String) (m m' : Market)
    (h1 : lookupMarket s name = some m)
    (h2 : lookupMarket (dispatch op s) name = some m') :
    m.accrualIndex ≤ m'.accrualIndex := by
  obtain ⟨hr, hidx⟩ := hWF
  have hm0 : 0 ≤ m.accrualIndex := hidx m (List.mem_of_find?_eq_some h1)
  cases hrun : runOp op s with
  | error e =>
    rw [dispatch_of_error hrun, h1] at h2
    cases h2
    exact le_refl _
  | ok s1 =>
    rw [dispatch_of_ok hrun] at h2
    cases op with
    | addMarket c nm p tk f t =>
      simp only [runOp] at hrun
      split at hrun
      · split at hrun
        · cases hrun
        · cases hrun
          unfold lookupMarket at h2
          simp only [List.find?_append] at h2
          unfold lookupMarket at h1
          rw [h1] at h2
          simp only [Option.or] at h2
          cases h2
          exact le_refl _
      · cases hrun
    | setListed c nm b =>
      simp only [runOp] at hrun
      split at hrun
      · split at hrun
        · cases hrun
          refine le_of_lookup_map ?_ h1 h2 ?_
          · intro x
            by_cases h : (x.name == nm) = true <;> simp [h]
          · by_cases h : (m.name == nm) = true <;> simp [h]
        · cases hrun
      · cases hrun
    | setPrice c nm p =>
      simp only [runOp] at hrun
      split at hrun
      · split at hrun
        · cases hrun
          refine le_of_lookup_map ?_ h1 h2 ?_
          · intro x
            by_cases h : (x.name == nm) = true <;> simp [h]
          · by_cases h : (m.name == nm) = true <;> simp [h]
        · cases hrun
      · cases hrun
    | deposit c mk a t =>
      simp only [runOp] at hrun
      split at hrun
      · cases hrun
      · split at hrun
        · cases hrun
          exact le_of_lookup_map
            (fun x => by by_cases h : (x.name == mk) = true <;> simp [h, accrue_name])
            h1 h2 (accrue_if_index_le s hr mk t m hm0)
        · cases hrun
    | withdraw c mk a t =>
      simp only [runOp] at hrun
      split at hrun
      · cases hrun
      · split at hrun
        · cases hrun
        · split at hrun
          · cases hrun
            exact accrue_twostep_le s hr mk _ t h1 hm0 h2
          · cases hrun
    | borrow c mk a t =>
      simp only [runOp] at hrun
      split at hrun
      · cases hrun
      · split at hrun
        · cases hrun
          exact accrue_twostep_le s hr mk _ t h1 hm0 h2
        · cases hrun
    | repay c mk a t =>
      simp only [runOp] at hrun
      split at hrun
      · cases hrun
      · cases hrun
        exact accrue_twostep_le s hr mk _ t h1 hm0 h2
    | liquidate c o t =>
      simp only [runOp] at hrun
      split at hrun
      · cases hrun
      · split at hrun
        · cases hrun
        · cases hrun
          exact le_of_lookup_map (fun x => accrue_name _ _ _) h1 h2
            (accrue_index_le s.ratePerPeriod hr t m hm0)

/-- Claim C5, witness: an admin re-pricing of the demo market keeps the
accrual index at least its previous value. -/
theorem accrual_index_never_decreases_witness :
    marketA.accrualIndex ≤ marketA340.accrualIndex :=
  accrual_index_never_decreases (.setPrice adminA aName 340) demoState
    ⟨by norm_num [demoState, afterAddMarket],
     by
      intro m hm
      simp [demoState, afterAddMarket] at hm
      subst hm
      norm_num [marketA]⟩
    aName marketA marketA340
    (by simp [lookupMarket, demoState, afterAddMarket, marketA, List.find?])
    (by
      simp [dispatch, runOp, demoState, afterAddMarket, marketA, marketA340,
        lookupMarket, List.find?, adminA])

/-- Claim C6: when a market with the given name already exists, an admin's
`addMarket` with that name fails with `DuplicateMarket`, the whole state is
unchanged, and in particular the registry — every existing entry and the
set of names — is unchanged. -/
theorem duplicate_market_rejected (s : CdpState) (caller : Address) (name : String)
    (price : ℚ) (tok : Address) (f : ℚ) (t : Nat)
    (hadm : caller ∈ s.admins) (hdup : (lookupMarket s name).isSome = true) :
    runOp (.addMarket caller name price tok f t) s = .error .DuplicateMarket ∧
    dispatch (.addMarket caller name price tok f t) s = s ∧
    (dispatch (.addMarket caller name price tok f t) s).markets = s.markets := by
  have herr : runOp (.addMarket caller name price tok f t) s = .error .DuplicateMarket := by
    simp [runOp, hadm, hdup]
  exact ⟨herr, dispatch_of_error herr, by rw [dispatch_of_error herr]⟩

/-- Claim C6, witness: re-adding the already-listed market of the demo
state at a different price is rejected and the registry stays intact. -/
theorem duplicate_market_rejected_witness :
    runOp (.addMarket adminA aName 200 aAddr (1 / 2) 5) demoState = .error .DuplicateMarket ∧
    dispatch (.addMarket adminA aName 200 aAddr (1 / 2) 5) demoState = demoState ∧
    (dispatch (.addMarket adminA aName 200 aAddr (1 / 2) 5) demoState).markets =
      demoState.markets :=
  duplicate_market_rejected demoState adminA aName 200 aAddr (1 / 2) 5
    (by decide) (by decide)

/-- Claim C7: every mutating registry call (`addMarket`, `setListed`,
`setPrice`) made by a caller outside the AdminSet fails with
`Unauthorized`, and the sequence `listAdmin` returns is the same before
and after the failed call. -/
theorem nonadmin_registry_mutation_rejected (op : Op) (s : CdpState)
    (hmut : op.isRegistryMutation = true) (hadm : op.caller ∉ s.admins) :
    runOp op s = .error .Unauthorized ∧ listAdmin (dispatch op s) = listAdmin s := by
  have herr : runOp op s = .error .Unauthorized := by
    cases op <;> simp_all [Op.isRegistryMutation, Op.caller, runOp]
  exact ⟨herr, by rw [dispatch_of_error herr]⟩

/-- Claim C7, witness: the borrower, who is not an admin, cannot add a
market; the admin list is untouched. -/
theorem nonadmin_registry_mutation_rejected_witness :
    runOp (.addMarket userA aName aPrice aAddr (1 / 2) 0) demoState = .error .Unauthorized ∧
    listAdmin (dispatch (.addMarket userA aName aPrice aAddr (1 / 2) 0) demoState) =
      listAdmin demoState :=
  nonadmin_registry_mutation_rejected (.addMarket userA aName aPrice aAddr (1 / 2) 0)
    demoState rfl (by decide)

/-- Claim C8: from the freshly deployed contract, the admin's `addMarket`
call with name `"oERC20_A"`, price 350.0 and the test's token address
succeeds; afterwards `mmListed("oERC20_A")` returns `true` and `showAll()`
returns the empty sequence of positions. -/
theorem addMarket_fresh_scenario :
    runOp (.addMarket adminA aName aPrice aAddr (1 / 2) 0) (initState ctrA adminA) =
      .ok afterAddMarket ∧
    mmListed afterAddMarket aName = true ∧
    showAll afterAddMarket = [] := by
  refine ⟨afterAddMarket_step, ?_, rfl⟩
  simp [mmListed, lookupMarket, afterAddMarket, marketA]

/-- Claim C9, counterexample to the claim as stated: the public `addMarket`
call of the client harness does not carry four caller-supplied inputs —
`service.addMarket(aName, aPrice, aAddr, options)` passes three data
arguments plus the RPC options object. -/
theorem addMarket_call_not_four_data_inputs : (dataArgs addMarketArgs).length ≠ 4 := by
  decide

/-- Claim C9, amended: the public `addMarket` call takes exactly three
caller-supplied inputs — a string name, a decimal price and a 20-byte
token address — with no collateral-factor argument; the trailing argument
is the RPC options object. -/
theorem addMarket_call_three_data_inputs :
    (dataArgs addMarketArgs).length = 3 ∧
    JsArg.isStrArg ((dataArgs addMarketArgs).getD 0 JsArg.options) = true ∧
    JsArg.isNumArg ((dataArgs addMarketArgs).getD 1 JsArg.options) = true ∧
    JsArg.isBytesArg ((dataArgs addMarketArgs).getD 2 JsArg.options) = true ∧
    JsArg.bytesLen ((dataArgs addMarketArgs).getD 2 JsArg.options) = 20 := by
  refine ⟨rfl, rfl, rfl, rfl, ?_⟩
  decide

/-- Claim C10: the Cdp constructor takes no caller-supplied inputs — both
deploy call sites pass only the header options object — and on the
resulting fresh state `cdpAddr` returns an address (the contract's own)
and `listAdmin` returns a sequence of addresses (the deployer). -/
theorem cdp_constructor_takes_no_inputs :
    (dataArgs cdpTestDeployArgs).length = 0 ∧
    (dataArgs cdpScriptDeployArgs).length = 0 ∧
    ∀ self deployer : Address,
      cdpAddr (initState self deployer) = self ∧
      listAdmin (initState self deployer) = [deployer] :=
  ⟨rfl, rfl, fun _ _ => ⟨rfl, rfl⟩⟩
